import Mathlib

/-!
# Verification of the dessert-cost-app persistence core

Shallow embedding of the persistence/reconciliation core of the
"Dessert Cost Calculator" (src/app.js and its variants under src/unnamed/),
together with proofs settling the frozen claims about it.

Modelling conventions:
* JavaScript numbers are embedded as exact rationals (`ℚ`).  The application
  only adds, multiplies, divides and rounds user-entered decimals, so the
  rational idealization matches the algebraic structure the claims are about.
* JSON values (the result of `JSON.parse`) are the inductive `JVal`.
* `localStorage` entries and the IndexedDB contents are explicit fields of a
  `Stores` record; the embedded functions are state transformers over it.
* Fallible operations return `Option`/`Except` instead of throwing.
-/

/-- A parsed JSON value (the possible results of `JSON.parse`). -/
inductive JVal where
  | null : JVal
  | bool (b : Bool) : JVal
  | num (q : ℚ) : JVal
  | str (s : String) : JVal
  | arr (elems : List JVal) : JVal
  | obj (fields : List (String × JVal)) : JVal

namespace JVal

/-- JavaScript truthiness of a JSON value (`null`, `false`, `0` and `""` are
falsy; every array and object is truthy). -/
def truthy : JVal → Bool
  | .null => false
  | .bool b => b
  | .num q => decide (q ≠ 0)
  | .str s => decide (s ≠ "")
  | .arr _ => true
  | .obj _ => true

/-- Whether `typeof v === "object"` holds (true for `null`, arrays and
objects). -/
def typeofObject : JVal → Bool
  | .null => true
  | .arr _ => true
  | .obj _ => true
  | _ => false

/-- Parse a string as a canonical array index (digits only, no leading zero
except for `"0"` itself), mirroring which property names address array
elements in JavaScript. -/
def canonicalIndex? (s : String) : Option ℕ :=
  if s.data ≠ [] ∧ s.data.all Char.isDigit ∧ (s.data.head? = some '0' → s.data = ['0']) then
    some (s.data.foldl (fun a c => a * 10 + (c.toNat - 48)) 0)
  else none

/-- Property read `v[k]`, returning `none` for `undefined`.  On arrays only
canonical numeric indices address elements; on primitives every property the
app reads is `undefined`.  (Reading a property of `null` throws instead; the
call sites model that case separately.) -/
def index (v : JVal) (k : String) : Option JVal :=
  match v with
  | .obj fields => fields.lookup k
  | .arr elems => (canonicalIndex? k).bind elems.get?
  | _ => none

/-- `Object.keys(v)`: field names of an object, index strings of an array,
nothing for primitives. -/
def objKeys : JVal → List String
  | .obj fields => fields.map Prod.fst
  | .arr elems => (List.range elems.length).map (fun i => toString i)
  | _ => []

end JVal

/-! ## JavaScript numeric primitives

`Number(string)` follows the `StringNumericLiteral` grammar: optional
whitespace, then an optionally signed decimal literal (with optional fraction
and exponent) or `Infinity`, or an unsigned hex/octal/binary literal; the
empty string is `0` and anything else is `NaN`. -/

/-- The result of `Number(string)`: a finite value, an infinity, or `NaN`. -/
inductive JsNum where
  | finite (q : ℚ) : JsNum
  | infinite : JsNum
  | nan : JsNum
  deriving DecidableEq, Repr

/-- JavaScript whitespace (the WhiteSpace and LineTerminator characters that
`String.prototype.trim` and `Number` strip). -/
def wsChar (c : Char) : Bool :=
  c = ' ' ∨ c = '\t' ∨ c = '\n' ∨ c = '\r' ∨ c.toNat = 11 ∨ c.toNat = 12 ∨
  c.toNat = 160 ∨ c.toNat = 0xFEFF ∨ c.toNat = 0x2028 ∨ c.toNat = 0x2029

/-- `s.trim()` with JavaScript's whitespace set. -/
def jsTrim (s : String) : String :=
  String.mk ((s.data.dropWhile wsChar).reverse.dropWhile wsChar).reverse

/-- Whether a character is a hexadecimal digit. -/
def isHexDigitChar (c : Char) : Bool :=
  c.isDigit ∨ ('a' ≤ c ∧ c ≤ 'f') ∨ ('A' ≤ c ∧ c ≤ 'F')

/-- Digit value of a hex digit character. -/
def hexDigitVal (c : Char) : ℕ :=
  if c.isDigit then c.toNat - 48
  else if 'a' ≤ c ∧ c ≤ 'f' then c.toNat - 87
  else c.toNat - 55

/-- Fold a digit list in the given base into a natural number. -/
def digitsVal (base : ℕ) (ds : List Char) : ℕ :=
  ds.foldl (fun a c => a * base + hexDigitVal c) 0

/-- Parse the decimal-literal part `digits [. digits] [e|E [+|-] digits]` of a
JavaScript numeric string (the sign has already been consumed); the whole
input must be consumed. -/
def parseDecimalBody (cs : List Char) : Option ℚ :=
  let (ip, rest) := cs.span Char.isDigit
  let (fp, rest2) :=
    match rest with
    | '.' :: t => t.span Char.isDigit
    | _ => ([], rest)
  -- at least one digit must appear around the optional decimal point
  if ip = [] ∧ fp = [] then none
  else
    let mantissa : ℚ := (digitsVal 10 ip : ℚ) + (digitsVal 10 fp : ℚ) / ((10 : ℚ) ^ fp.length)
    match rest2 with
    | [] => some mantissa
    | e :: t =>
      if e = 'e' ∨ e = 'E' then
        let (sgn, t2) :=
          match t with
          | '+' :: u => ((1 : ℤ), u)
          | '-' :: u => ((-1 : ℤ), u)
          | _ => ((1 : ℤ), t)
        let (ed, t3) := t2.span Char.isDigit
        if ed = [] ∨ t3 ≠ [] then none
        else some (mantissa * (10 : ℚ) ^ (sgn * (digitsVal 10 ed : ℤ)))
      else none

/-- `Number(s)` for a string, mirroring the `StringNumericLiteral` grammar. -/
def jsNumber (s : String) : JsNum :=
  let cs := (jsTrim s).data
  match cs with
  | [] => .finite 0
  | _ =>
    -- unsigned non-decimal radix literals
    match cs with
    | '0' :: x :: t =>
      if x = 'x' ∨ x = 'X' then
        if t ≠ [] ∧ t.all isHexDigitChar then .finite (digitsVal 16 t) else .nan
      else if x = 'o' ∨ x = 'O' then
        if t ≠ [] ∧ t.all (fun c => '0' ≤ c ∧ c ≤ '7') then .finite (digitsVal 8 t) else .nan
      else if x = 'b' ∨ x = 'B' then
        if t ≠ [] ∧ t.all (fun c => c = '0' ∨ c = '1') then .finite (digitsVal 2 t) else .nan
      else
        match parseDecimalBody cs with
        | some q => .finite q
        | none => .nan
    | _ =>
      let (sgn, body) :=
        match cs with
        | '+' :: t => ((1 : ℚ), t)
        | '-' :: t => ((-1 : ℚ), t)
        | _ => ((1 : ℚ), cs)
      if body = "Infinity".data then .infinite
      else
        match parseDecimalBody body with
        | some q => .finite (sgn * q)
        | none => .nan

/-! ## JavaScript string conversion

`String(v)` for the values the core passes around.  JavaScript numbers are
IEEE doubles, every finite one of which has a finite decimal expansion; the
rational idealization renders exactly those rationals that have a finite
decimal expansion (the only ones that arise from JSON decimal literals) and
falls back to a `num/den` spelling on the others, which no embedded code
path ever stringifies. -/

/-- Smallest exponent `k ≤ 40` with `q * 10^k` integral, if any. -/
def decExponent? (q : ℚ) : Option ℕ :=
  (List.range 41).find? (fun k => (q * (10 : ℚ) ^ k).den = 1)

/-- Decimal rendering of a rational with finite decimal expansion, mirroring
`String(number)` for the doubles the app stores. -/
def jsNumToString (q : ℚ) : String :=
  match decExponent? q with
  | some k =>
    let m := (q * (10 : ℚ) ^ k).num.natAbs
    let sign := if q < 0 then "-" else ""
    if k = 0 then sign ++ toString m
    else
      let ip := m / 10 ^ k
      let fp := m % 10 ^ k
      let fpDigits := toString fp
      let pad := String.mk (List.replicate (k - fpDigits.length) '0')
      sign ++ toString ip ++ "." ++ pad ++ fpDigits
  | none => toString q.num ++ "/" ++ toString q.den

mutual
/-- `String(v)` on a JSON value (array elements render `null` as `""`,
arrays join with `","`, objects print `"[object Object]"`). -/
def jsStringOf : JVal → String
  | .null => "null"
  | .bool b => if b then "true" else "false"
  | .num q => jsNumToString q
  | .str s => s
  | .arr elems => jsStringOfElems elems
  | .obj _ => "[object Object]"

/-- `Array.prototype.toString`: elements joined by `","`, with `null`
rendered as the empty string. -/
def jsStringOfElems : List JVal → String
  | [] => ""
  | [v] => (match v with | .null => "" | w => jsStringOf w)
  | v :: rest => (match v with | .null => "" | w => jsStringOf w) ++ "," ++ jsStringOfElems rest
end

/-- `String(v || "")`: falsy values become `""`, all others are stringified.
Every name read inside the core goes through this pattern. -/
def jsStringOrEmptyFalsy (v : JVal) : String :=
  if v.truthy then jsStringOf v else ""

/-- `String(v ?? "")`: only `null`/`undefined` become `""` (`undefined` is
the `none` case at call sites); all others are stringified. -/
def jsStringOrEmptyNullish (v : JVal) : String :=
  match v with
  | .null => ""
  | w => jsStringOf w

/-- `s.replace(",", ".")`: replaces only the FIRST comma, as the JavaScript
string-pattern `replace` does. -/
def replaceFirstComma (s : String) : String :=
  String.mk (go s.data)
where
  go : List Char → List Char
    | [] => []
    | ',' :: rest => '.' :: rest
    | c :: rest => c :: go rest

/-- src/app.js lines 38-43, function `n`: the Numeric Coercion primitive.
`none` is JavaScript `undefined`.  For a number argument, `Number(String(v))`
is the identity on every finite double, so the `.num` case returns the value
directly; `NaN`/infinite inputs cannot be represented by `JVal.num` (JSON has
no such literals).  The function is total: it never raises. -/
def n (v : Option JVal) : ℚ :=
  match v with
  | none => 0
  | some .null => 0
  | some (.num q) => q
  | some w =>
    let s := replaceFirstComma (jsTrim (jsStringOf w))
    match jsNumber s with
    | .finite x => x
    | _ => 0

/-! ## Data model

State of the two persistence layers plus the in-memory app state, translated
from src/app.js (first variant, the one the claims cite).  Modelling notes:
* The ingredient cache and recipe metadata are stored as JSON objects whose
  entries the app always writes well-formed; they are modelled in parsed,
  coerced form (`saveIngredientCache`/`saveMeta` serialize them verbatim and
  `loadIngredientCache`/`loadMeta` recover them, so the round trip is the
  identity of this representation).
* A `rowsLS` entry models one `dessert_rows__v2__<name>` localStorage value:
  `none` is an absent key, `malformed` is text `JSON.parse` rejects.
* `db = none` models an unavailable IndexedDB (`DB = null`). -/

/-- An ingredient-cache entry `{cost, amount}`. -/
structure CacheEntry where
  cost : ℚ
  amount : ℚ
  deriving DecidableEq, Repr

/-- A recipe-metadata entry `{favorite, folder}`. -/
structure MetaEntry where
  favorite : Bool
  folder : String
  deriving DecidableEq, Repr

/-- An ingredient row as the app holds it in memory.  Stored rows may carry a
non-string `name`; every core read of it is `String(r.name || "")`, so the
load boundary applies that observationally equivalent stringification. -/
structure Row where
  name : String
  cost : ℚ
  amount : ℚ
  recipeAmount : ℚ
  deriving DecidableEq, Repr

/-- One record of the IndexedDB `recipe_items` store,
`{key, recipeName, Ingredient, RecipeAmmount}` with primary key `key`. -/
structure Item where
  key : String
  recipeName : String
  Ingredient : String
  RecipeAmmount : ℚ
  deriving DecidableEq, Repr

/-- A stored localStorage text, as far as `JSON.parse` is concerned. -/
inductive StoredText where
  | parsed (j : JVal) : StoredText
  | malformed : StoredText

/-- The persistent state visible to the core (localStorage keys plus the
IndexedDB contents). -/
structure Stores where
  rowsLS : String → Option StoredText
  currentLS : Option String
  marginLS : Option ℚ
  cacheLS : List (String × CacheEntry)
  metaLS : List (String × MetaEntry)
  foldersLS : List String
  db : Option (List Item)

/-- The in-memory app state: the current-recipe pointer, the working rows
and whether a debounced save is pending (`saveTimer !== null`). -/
structure AppState where
  stores : Stores
  currentRecipe : String
  rowsState : List Row
  saveTimer : Bool

/-- Update of one JavaScript object property: existing keys keep their
position, new keys are appended. -/
def objUpsert {α : Type} (l : List (String × α)) (k : String) (v : α) : List (String × α) :=
  if (l.lookup k).isSome then l.map (fun p => if p.1 = k then (k, v) else p)
  else l ++ [(k, v)]

/-! ## Embedded functions (src/app.js, first variant) -/

/-- src/app.js lines 63-65: the single blank default row. -/
def defaultRows : List Row :=
  [{ name := "", cost := 0, amount := 0, recipeAmount := 0 }]

/-- src/app.js lines 89-92: stored pointer, trimmed, defaulting to
`"Default"`. -/
def getCurrentRecipe (s : Stores) : String :=
  let t := jsTrim (s.currentLS.getD "")
  if t = "" then "Default" else t

/-- src/app.js line 93. -/
def setCurrentRecipe (s : Stores) (name : String) : Stores :=
  { s with currentLS := some name }

/-- src/app.js lines 95-99: `n(raw)` of the stored string round-trips to the
stored value, absent key defaults to 30 (always finite here). -/
def loadMarginPct (s : Stores) : ℚ :=
  s.marginLS.getD 30

/-- src/app.js line 100. -/
def saveMarginPct (s : Stores) (v : ℚ) : Stores :=
  { s with marginLS := some v }

/-- src/app.js lines 102-111 (malformed text yields `{}`, which the parsed
representation absorbs). -/
def loadIngredientCache (s : Stores) : List (String × CacheEntry) :=
  s.cacheLS

/-- src/app.js lines 112-114. -/
def saveIngredientCache (s : Stores) (cache : List (String × CacheEntry)) : Stores :=
  { s with cacheLS := cache }

/-- Read of `v[k]` under optional chaining (`v?.[k]`): `null` yields
`undefined` instead of throwing. -/
def jOptIndex (v : JVal) (k : String) : Option JVal :=
  match v with
  | .null => none
  | w => w.index k

/-- Conversion of one parsed array element into a `Row`, as in src/app.js
lines 187-192: `name: r.name ?? ""` (observational `String(·)` at the
boundary), numeric fields through `n`.  Reading a property of `null` throws,
which aborts the whole load (`none`). -/
def rowOfStored (j : JVal) : Option Row :=
  match j with
  | .null => none
  | v =>
    some { name := match v.index "name" with
                   | none => ""
                   | some .null => ""
                   | some w => jsStringOrEmptyFalsy w,
           cost := n (v.index "cost"),
           amount := n (v.index "amount"),
           recipeAmount := n (v.index "recipeAmount") }

/-- src/app.js lines 181-196, `loadRowsForRecipe`: absent key, text that is
not valid JSON, a non-array value, or a thrown element access all yield
`null` (`none`); otherwise each element is coerced into a `Row`. -/
def loadRowsForRecipe (s : Stores) (recipeName : String) : Option (List Row) :=
  match s.rowsLS recipeName with
  | none => none
  | some .malformed => none
  | some (.parsed j) =>
    match j with
    | .arr elems => elems.mapM rowOfStored
    | _ => none

/-- Serialization of a `Row` for `JSON.stringify`. -/
def rowToJson (r : Row) : JVal :=
  .obj [("name", .str r.name), ("cost", .num r.cost),
        ("amount", .num r.amount), ("recipeAmount", .num r.recipeAmount)]

/-- src/app.js lines 197-199, `saveRowsForRecipe`: total overwrite of the
recipe's rows entry. -/
def saveRowsForRecipe (s : Stores) (recipeName : String) (rows : List Row) : Stores :=
  { s with rowsLS := fun k =>
      if k = recipeName then some (.parsed (.arr (rows.map rowToJson))) else s.rowsLS k }

/-- The derived quantities of one row. -/
structure ComputedRow where
  unit : ℚ
  recipeCost : ℚ
  deriving DecidableEq, Repr

/-- src/app.js lines 201-205, `computeRow`. -/
def computeRow (r : Row) : ComputedRow :=
  let unit := if r.amount > 0 then r.cost / r.amount else 0
  { unit := unit, recipeCost := unit * r.recipeAmount }

/-- src/app.js lines 206-212, `computeTotal`: an accumulating loop over the
rows. -/
def computeTotal (rows : List Row) : ℚ :=
  rows.foldl (fun total r => total + (computeRow r).recipeCost) 0

/-- src/app.js lines 351-362: the pricing part of `updateTotalAndPricing`,
`Math.round(total * (1 + marginPct / 100))`; `Math.round x = ⌊x + 1/2⌋`,
which is Mathlib's `round`.  The result is an integer by type. -/
def finalPrice (total marginPct : ℚ) : ℤ :=
  round (total * (1 + marginPct / 100))

/-- src/app.js lines 312-323, `updateIngredientCacheFromRows`: upsert one
entry per row with non-empty trimmed name and positive cost or amount. -/
def updateIngredientCacheFromRows (s : Stores) (rows : List Row) : Stores :=
  saveIngredientCache s <| rows.foldl
    (fun cache r =>
      let nm := jsTrim r.name
      if nm = "" then cache
      else if r.cost > 0 ∨ r.amount > 0 then objUpsert cache nm { cost := r.cost, amount := r.amount }
      else cache)
    (loadIngredientCache s)

/-! ## IndexedDB layer

`recipe_items` is a keyed object store; `getAll` yields its records and
`put` replaces the record carrying the same primary key.  A transaction's
operations are modelled by their net effect on the record list (the claims
C2/C3 treat atomicity and suspension order separately, via C3's traces). -/

/-- `store.delete(k)` net effect. -/
def idbDelete (db : List Item) (k : String) : List Item :=
  db.filter (fun x => x.key ≠ k)

/-- `store.put(it)` net effect: replaces the record with the same key. -/
def idbPut (db : List Item) (it : Item) : List Item :=
  db.filter (fun x => x.key ≠ it.key) ++ [it]

/-- src/app.js lines 246-249, `dbGetItems`: all records whose `recipeName`
matches. -/
def dbGetItems (db : List Item) (recipeName : String) : List Item :=
  db.filter (fun x => x.recipeName = recipeName)

/-- One iteration of the insert loop of `dbPutItems` (src/app.js lines
273-280): skip rows with empty trimmed name (`String(r.name || "").trim()`),
otherwise put the record under the key `recipeName::Ingredient`. -/
def putRowStep (recipeName : String) (d : List Item) (r : Row) : List Item :=
  let ing := jsTrim r.name
  if ing = "" then d
  else idbPut d { key := recipeName ++ "::" ++ ing, recipeName := recipeName,
                  Ingredient := ing, RecipeAmmount := r.recipeAmount }

/-- src/app.js lines 263-287, `dbPutItems` (success path): read the existing
records for the recipe, then in one transaction delete each of them and put
one record per row with non-empty trimmed name (`RecipeAmmount` is
`n(r.recipeAmount)`, the identity on the already numeric field). -/
def dbPutItems (db : List Item) (recipeName : String) (rows : List Row) : List Item :=
  let existing := dbGetItems db recipeName
  let afterDeletes := existing.foldl (fun d it => idbDelete d it.key) db
  rows.foldl (putRowStep recipeName) afterDeletes

/-- src/app.js lines 289-304, `dbDeleteRecipe` (success path). -/
def dbDeleteRecipe (db : List Item) (recipeName : String) : List Item :=
  (dbGetItems db recipeName).foldl (fun d it => idbDelete d it.key) db

/-! ## Lifecycle manager -/

/-- src/app.js lines 528-549, `ensureRowsForRecipe` — the resolution chain.
`if (fromLS) return fromLS` is taken for every loaded array because every
array, including `[]`, is truthy in JavaScript. -/
def ensureRowsForRecipe (s : Stores) (recipeName : String) : List Row :=
  match loadRowsForRecipe s recipeName with
  | some fromLS => fromLS
  | none =>
    match s.db with
    | some db =>
      let items := dbGetItems db recipeName
      if items.length ≠ 0 then
        let cache := loadIngredientCache s
        let built := items.map (fun it =>
          let c := (cache.lookup it.Ingredient).getD { cost := 0, amount := 0 }
          { name := it.Ingredient, cost := c.cost, amount := c.amount,
            recipeAmount := it.RecipeAmmount : Row })
        if built.length ≠ 0 then built else defaultRows
      else defaultRows
    | none => defaultRows

/-- src/app.js lines 150-158, `ensureMetaForRecipe` (on the parsed
representation the field coercions are identities, so only the missing-entry
branch acts). -/
def ensureMetaForRecipe (meta : List (String × MetaEntry)) (recipeName : String) :
    List (String × MetaEntry) :=
  if (meta.lookup recipeName).isSome then meta
  else meta ++ [(recipeName, { favorite := false, folder := "" })]

/-- The `loadMeta / ensureMetaForRecipe / saveMeta` block of `switchRecipe`
(src/app.js lines 560-564). -/
def ensureMetaStore (s : Stores) (recipeName : String) : Stores :=
  { s with metaLS := ensureMetaForRecipe s.metaLS recipeName }

/-- src/app.js lines 570-575, `scheduleSave`: arm the debounced save. -/
def scheduleSave (a : AppState) : AppState :=
  { a with saveTimer := true }

/-- The debounce-timer callback (src/app.js lines 572-574) as the host would
run it at a suspension point: if the timer is still armed it writes the
CURRENT recipe's in-memory rows and disarms.  The write is appended to the
log of row-store writes. -/
def fireSaveTimer (a : AppState) : AppState × List (String × List Row) :=
  if a.saveTimer then
    ({ a with stores := saveRowsForRecipe a.stores a.currentRecipe a.rowsState,
              saveTimer := false },
     [(a.currentRecipe, a.rowsState)])
  else (a, [])

/-- src/app.js lines 551-568, `switchRecipe`, with the single host
interleaving point made explicit: the function body is synchronous up to the
`await ensureRowsForRecipe(...)`, where an elapsed debounce timer may run
(`timerFires`).  Returns the new state and the chronological log of
row-store writes performed during the call (including any timer write). -/
def switchRecipe (a : AppState) (recipeName : String) (persist : Bool) (timerFires : Bool) :
    AppState × List (String × List Row) :=
  -- line 552: cancel any pending debounced save
  let a1 : AppState := { a with saveTimer := false }
  -- lines 554-555: move the pointer, optionally persisting it
  let a2 : AppState :=
    { a1 with currentRecipe := recipeName,
              stores := if persist then setCurrentRecipe a1.stores recipeName else a1.stores }
  -- line 557 suspends on the profile read; the host may run a due timer now
  let fired := if timerFires then fireSaveTimer a2 else (a2, [])
  let a3 := fired.1
  let resolved := ensureRowsForRecipe a3.stores recipeName
  -- lines 557-558: adopt and persist the resolved rows
  let a4 : AppState :=
    { a3 with rowsState := resolved,
              stores := saveRowsForRecipe a3.stores recipeName resolved }
  -- lines 560-564: ensure metadata for the now-current recipe
  let a5 : AppState := { a4 with stores := ensureMetaStore a4.stores recipeName }
  (a5, fired.2 ++ [(recipeName, resolved)])

/-- src/app.js lines 1197-1224: the `tbody` click handler for a row-delete
button with rendered index `idx` (`Number(del)` of a rendered row index).
`splice(idx, 1)` removes the row; an emptied list is reset to `defaultRows`;
both branches write the rows back immediately and re-arm the debounce. -/
def tbodyDeleteRow (a : AppState) (idx : ℕ) : AppState :=
  let spliced := a.rowsState.eraseIdx idx
  if spliced.length = 0 then
    let a1 : AppState := { a with rowsState := defaultRows }
    let a2 : AppState := { a1 with stores := saveRowsForRecipe a1.stores a1.currentRecipe a1.rowsState }
    let a3 := scheduleSave a2
    { a3 with stores := updateIngredientCacheFromRows a3.stores a3.rowsState }
  else
    let a1 : AppState := { a with rowsState := spliced }
    let a2 : AppState := { a1 with stores := saveRowsForRecipe a1.stores a1.currentRecipe spliced }
    scheduleSave a2

/-! ## Folders and backup codec -/

/-- Insertion of a string into a sorted list (code-point order models
`localeCompare` for the ordering-insensitive claims below). -/
def insertSorted (s : String) : List String → List String
  | [] => [s]
  | x :: xs => if s ≤ x then s :: x :: xs else x :: insertSorted s xs

/-- Sort a list of strings. -/
def sortStrings (l : List String) : List String :=
  l.foldr insertSorted []

/-- `Array.from(new Set(l))`: first occurrences, in order. -/
def setDedup (l : List String) : List String :=
  l.foldl (fun acc s => if s ∈ acc then acc else acc ++ [s]) []

/-- src/app.js lines 119-128, `loadFolders` (parsed representation holds the
already filtered and trimmed list). -/
def loadFolders (s : Stores) : List String :=
  s.foldersLS

/-- src/app.js lines 129-134, `saveFolders`: trim via `String(s || "")`,
drop empties, dedupe, sort, store, and return the cleaned list. -/
def saveFolders (s : Stores) (folders : List JVal) : Stores × List String :=
  let clean := sortStrings (setDedup
    ((folders.map (fun f => jsTrim (jsStringOrEmptyFalsy f))).filter (fun x => x ≠ "")))
  ({ s with foldersLS := clean }, clean)

/-- src/app.js lines 841-847, `isValidBackupObject`.  Note `typeof x ===
"object"` holds for arrays, so an array `recipes` passes the last check. -/
def isValidBackupObject (o : JVal) : Bool :=
  (o.truthy && o.typeofObject) &&
  (match o.index "app" with
   | some (.str a) => a == "DessertCostCalculator"
   | _ => false) &&
  (match o.index "schemaVersion" with
   | some (.num _) => true
   | _ => false) &&
  (match o.index "recipes" with
   | some r => r.truthy && r.typeofObject
   | none => false)

/-- Sanitization of one incoming backup row (src/app.js lines 913-918):
`String(r?.name ?? "")` and `n` on the numeric fields, all under optional
chaining. -/
def sanitizeImportRow (r : JVal) : Row :=
  { name := match jOptIndex r "name" with
            | none => ""
            | some .null => ""
            | some w => jsStringOf w,
    cost := n (jOptIndex r "cost"),
    amount := n (jOptIndex r "amount"),
    recipeAmount := n (jOptIndex r "recipeAmount") }

/-- Coercion of an incoming ingredient-cache entry at the merge boundary
(the app itself only ever writes `{cost, amount}` objects; a merged raw
value is observationally read through `n` at every use). -/
def cacheEntryOfJVal (v : JVal) : CacheEntry :=
  { cost := n (jOptIndex v "cost"), amount := n (jOptIndex v "amount") }

/-- Key/value pairs produced by an object spread `{...v}` of a validated
(truthy, `typeof "object"`) JSON value. -/
def spreadPairs (v : JVal) : List (String × JVal) :=
  match v with
  | .obj fields => fields
  | .arr elems => (List.range elems.length).zipWith (fun i e => (toString i, e)) elems
  | _ => []

/-- The meta-merge step for one incoming recipe (src/app.js lines 873-885). -/
def importMetaStep (recipes : JVal) (meta : List (String × MetaEntry)) (rn : String) :
    List (String × MetaEntry) :=
  match recipes.index rn with
  | some rec =>
    if rec.truthy && rec.typeofObject then
      let meta1 := ensureMetaForRecipe meta rn
      match rec.index "meta" with
      | some m =>
        if m.truthy && m.typeofObject then
          let prev := (meta1.lookup rn).getD { favorite := false, folder := "" }
          objUpsert meta1 rn
            { favorite := match m.index "favorite" with
                          | some (.bool b) => b
                          | _ => prev.favorite,
              folder := match m.index "folder" with
                        | some (.str f) => f
                        | _ => prev.folder }
        else meta1
      | none => meta1
    else meta
  | none => meta

/-- The settings-merge step (src/app.js lines 888-903). -/
def importSettings (obj : JVal) (s : Stores) : Stores :=
  match obj.index "settings" with
  | some st =>
    if st.truthy && st.typeofObject then
      let s1 := match st.index "marginPct" with
                | some (.num q) => saveMarginPct s q
                | _ => s
      match st.index "ingredientCache" with
      | some ic =>
        if ic.truthy && ic.typeofObject then
          saveIngredientCache s1
            ((spreadPairs ic).foldl
              (fun cur p => objUpsert cur p.1 (cacheEntryOfJVal p.2))
              (loadIngredientCache s1))
        else s1
      | none => s1
    else s
  | none => s

/-- The rows-import step for one incoming recipe (src/app.js lines 906-930):
replace the recipe's localStorage rows and, when the DB is available, its
profile records. -/
def importRowsStep (recipes : JVal) (s : Stores) (rn : String) : Stores :=
  match recipes.index rn with
  | some rec =>
    if rec.truthy && rec.typeofObject then
      match rec.index "rows" with
      | some (.arr rws) =>
        let sanitized := rws.map sanitizeImportRow
        let s1 := saveRowsForRecipe s rn sanitized
        match s1.db with
        | some db => { s1 with db := some (dbPutItems db rn sanitized) }
        | none => s1
      | _ => s
    else s
  | none => s

/-- src/app.js lines 849-947, `importBackupFromJsonText` (the rendering
refreshes are external collaborators).  The argument is the `JSON.parse`
result (`none` when parsing threw); the returned flag is whether the import
went through (`false` = rejected with an error message, before any state
mutation).  The `overwrite` flag does not change the data rules (the code
replaces same-named recipes in both modes). -/
def importBackupFromJsonText (parseResult : Option JVal) (a : AppState) : AppState × Bool :=
  match parseResult with
  | none => (a, false)
  | some obj =>
    if ¬ isValidBackupObject obj then (a, false)
    else
      let incomingFolders := match obj.index "folders" with
                             | some (.arr l) => l
                             | _ => []
      let incomingRecipes := (obj.index "recipes").getD .null
      let incomingNames := incomingRecipes.objKeys
      -- merge folders
      let folded := saveFolders a.stores ((loadFolders a.stores).map .str ++ incomingFolders)
      let s1 := folded.1
      -- merge meta
      let s2 : Stores :=
        { s1 with metaLS := incomingNames.foldl (importMetaStep incomingRecipes) s1.metaLS }
      -- merge settings
      let s3 := importSettings obj s2
      -- import recipe rows
      let s4 := incomingNames.foldl (importRowsStep incomingRecipes) s3
      -- switch to the document's current recipe when it exists, else re-switch
      let desired := jsTrim (match obj.index "currentRecipe" with
                             | none => ""
                             | some v => jsStringOrEmptyFalsy v)
      let target :=
        if desired ≠ "" ∧ ((incomingRecipes.index desired).map JVal.truthy).getD false then desired
        else getCurrentRecipe s4
      let switched := switchRecipe { a with stores := s4 } target true false
      (switched.1, true)

/-! ## Transaction-order traces (claim C3)

The ordering claim is temporal, so the two implementations of the replace
and delete operations are also embedded as traces of their suspension and
transaction events, one event per relevant source line. -/

/-- Events of a profile-store operation: an awaited asynchronous read
completing, the read-write transaction being opened, and its deletes and
puts. -/
inductive TxEvent where
  | awaitRead : TxEvent
  | openTx : TxEvent
  | delete : TxEvent
  | put : TxEvent
  deriving DecidableEq, Repr

/-- src/app.js lines 263-280, `dbPutItems`: `await dbGetItems` completes
first, then the transaction opens, then `nExisting` deletes and `nInserted`
puts are issued synchronously. -/
def dbPutItemsEvents (nExisting nInserted : ℕ) : List TxEvent :=
  [.awaitRead, .openTx] ++ List.replicate nExisting .delete ++ List.replicate nInserted .put

/-- src/app.js lines 289-297, `dbDeleteRecipe`: same safe order. -/
def dbDeleteRecipeEvents (nExisting : ℕ) : List TxEvent :=
  [.awaitRead, .openTx] ++ List.replicate nExisting .delete

/-- src/unnamed/part_000 lines 198-216, `dbPutItems` of the v1 variant: the
read-write transaction is opened FIRST (line 201) and only then is
`dbGetItems` awaited (line 205), before the deletes and puts. -/
def dbPutItemsEventsV1 (nExisting nInserted : ℕ) : List TxEvent :=
  [.openTx, .awaitRead] ++ List.replicate nExisting .delete ++ List.replicate nInserted .put

/-- src/unnamed/part_000 lines 253-267, `dbDeleteRecipe` of the v1 variant:
transaction opened on line 254, read awaited on line 257. -/
def dbDeleteRecipeEventsV1 (nExisting : ℕ) : List TxEvent :=
  [.openTx, .awaitRead] ++ List.replicate nExisting .delete

/-- Whether an asynchronous suspension occurs at or after the opening of the
write transaction (the unsafe pattern some hosts abort on). -/
def suspensionAfterOpen (t : List TxEvent) : Bool :=
  (t.dropWhile (fun e => e ≠ TxEvent.openTx)).any (fun e => e = TxEvent.awaitRead)

/-! ## Reference definition for Numeric Coercion (claim C10)

`numericCoercionSpec` follows the claim's words: null and undefined yield 0;
otherwise the value is stringified, trimmed, its first comma (only the
first) replaced by a dot, and parsed; a finite parse is returned (including
negative values) and anything else yields 0.  As in `n` itself, the number
case short-circuits to the value because `Number(String(x))` is the identity
on every finite JavaScript number. -/

/-- The claim's reference definition of Numeric Coercion. -/
def numericCoercionSpec (v : Option JVal) : ℚ :=
  match v with
  | none => 0
  | some .null => 0
  | some (.num q) => q
  | some w =>
    match jsNumber (replaceFirstComma (jsTrim (jsStringOf w))) with
    | .finite x => x
    | _ => 0

/-! ## Specification views used by the C2 statement -/

/-- Canonical keys written by `dbPutItems recipeName rows`, in row order. -/
def keysOf (recipeName : String) (rows : List Row) : List String :=
  rows.filterMap (fun r =>
    let ing := jsTrim r.name
    if ing = "" then none else some (recipeName ++ "::" ++ ing))

/-- The last row whose trimmed name is `ing` (last write wins). -/
def lastRowFor (rows : List Row) (ing : String) : Option Row :=
  (rows.filter (fun r => jsTrim r.name = ing)).getLast?

/-- The profile records `dbPutItems` is specified to leave for one
ingredient name: none for the empty name or a name no row carries, and
exactly one — with the LAST such row's `recipeAmount` — otherwise. -/
def specRecordsFor (recipeName : String) (rows : List Row) (ing : String) : List Item :=
  if ing = "" then []
  else
    match lastRowFor rows ing with
    | some r => [{ key := recipeName ++ "::" ++ ing, recipeName := recipeName,
                   Ingredient := ing, RecipeAmmount := r.recipeAmount }]
    | none => []

/-- The canonical record `dbPutItems recipeName rows` writes for ingredient
`ing` with recipe amount `amt`. -/
def mkItem (recipeName ing : String) (amt : ℚ) : Item :=
  { key := recipeName ++ "::" ++ ing, recipeName := recipeName,
    Ingredient := ing, RecipeAmmount := amt }

/-! ## Concrete instances used by witnesses and counterexamples -/

/-- A store with no local rows for "Cake", one profile record for it, and a
cached "Flour" entry — the spec's rebuild-correctness scenario. -/
def flourStores : Stores :=
  { rowsLS := fun _ => none, currentLS := none, marginLS := none,
    cacheLS := [("Flour", { cost := 1290, amount := 1000 })],
    metaLS := [], foldersLS := [],
    db := some [{ key := "Cake::Flour", recipeName := "Cake", Ingredient := "Flour",
                  RecipeAmmount := 300 }] }

/-- A store whose "Pie" rows entry is the persisted text `"[]"`, while the
Profile Store holds a record that a rebuild would surface. -/
def emptyRowsStores : Stores :=
  { rowsLS := fun k => if k = "Pie" then some (.parsed (.arr [])) else none,
    currentLS := none, marginLS := none,
    cacheLS := [("X", { cost := 5, amount := 1 })],
    metaLS := [], foldersLS := [],
    db := some [{ key := "Pie::X", recipeName := "Pie", Ingredient := "X", RecipeAmmount := 2 }] }

/-- An app state holding a single row, about to have it deleted. -/
def oneRowState : AppState :=
  { stores := { rowsLS := fun _ => none, currentLS := some "Cake", marginLS := none,
                cacheLS := [], metaLS := [], foldersLS := [], db := none },
    currentRecipe := "Cake",
    rowsState := [{ name := "Flour", cost := 1290, amount := 1000, recipeAmount := 300 }],
    saveTimer := false }

/-- A backup document whose `recipes` field is an ARRAY: not a mapping, yet
`typeof [] === "object"`, so `isValidBackupObject` accepts it. -/
def arrayRecipesDoc : JVal :=
  .obj [("app", .str "DessertCostCalculator"), ("schemaVersion", .num 1), ("recipes", .arr [])]

/-- A fresh app state for exercising the import path. -/
def freshState : AppState :=
  { stores := { rowsLS := fun _ => none, currentLS := none, marginLS := none,
                cacheLS := [], metaLS := [], foldersLS := [], db := none },
    currentRecipe := "Default",
    rowsState := [{ name := "", cost := 0, amount := 0, recipeAmount := 0 }],
    saveTimer := false }

/-! ## Helper lemmas -/

/-- Accumulating fold of a sum is the sum of the mapped list. -/
lemma foldl_add_map (f : Row → ℚ) (l : List Row) : ∀ a : ℚ,
    l.foldl (fun t r => t + f r) a = a + (l.map f).sum := by
  induction l with
  | nil => intro a; simp
  | cons x xs ih => intro a; simp [List.foldl_cons, ih, add_assoc]

/-- No `awaitRead` hides in a replicated list of other events. -/
lemma any_awaitRead_replicate (x : TxEvent) (hx : x ≠ .awaitRead) : ∀ k : ℕ,
    (List.replicate k x).any (fun e => e = TxEvent.awaitRead) = false := by
  intro k
  induction k with
  | zero => rfl
  | succ m ih => simp [List.replicate_succ, ih, hx]

/-! ## Claim theorems -/

/-- C7: for every row, `lineCost` (`recipeCost`) equals
`(cost / amount) * recipeAmount` when `amount > 0` and equals 0 when
`amount = 0` (with `unitCost` 0 regardless of `cost`), and for every row
sequence `totalCost` (`computeTotal`) is the sum of the line costs (0 for
the empty sequence). -/
theorem computeRow_computeTotal_correct :
    (∀ r : Row, 0 < r.amount → (computeRow r).recipeCost = r.cost / r.amount * r.recipeAmount) ∧
    (∀ r : Row, r.amount = 0 → (computeRow r).unit = 0 ∧ (computeRow r).recipeCost = 0) ∧
    (∀ rows : List Row,
      computeTotal rows = (rows.map (fun r => (computeRow r).recipeCost)).sum) ∧
    computeTotal [] = 0 := by
  refine ⟨?_, ?_, ?_, rfl⟩
  · intro r h
    simp [computeRow, h]
  · intro r h
    constructor <;> simp [computeRow, h]
  · intro rows
    simpa using foldl_add_map (fun r => (computeRow r).recipeCost) rows 0

/-- Witness for C7 at the spec's example row: the hypothesis `0 < amount`
holds at 1000 and the theorem yields `lineCost = 1290/1000 * 300` (= 387). -/
theorem computeRow_computeTotal_correct_witness :
    (0 : ℚ) < 1000 ∧
    (computeRow { name := "Flour", cost := 1290, amount := 1000, recipeAmount := 300 }).recipeCost
      = 1290 / 1000 * 300 :=
  ⟨by norm_num, computeRow_computeTotal_correct.1 _ (by norm_num)⟩

/-- C8: `finalPrice` is the integer `round(total * (1 + marginPct/100))`
(`Math.round x = ⌊x + 1/2⌋`), and at total 387, margin 30 it returns 503. -/
theorem finalPrice_correct :
    (∀ total marginPct : ℚ,
      finalPrice total marginPct = ⌊total * (1 + marginPct / 100) + 1 / 2⌋) ∧
    finalPrice 387 30 = 503 := by
  constructor
  · intro total marginPct
    simp [finalPrice, round_eq]
  · norm_num [finalPrice, round_eq]

/-- C10: Numeric Coercion `n` is total (a Lean function; it never raises)
and agrees with the claim's reference definition everywhere; in particular
null and undefined give 0, negative values pass through, only the FIRST
comma is replaced (so `"1,2,3"` parses as `NaN` and yields 0), and a
non-numeric string yields 0. -/
theorem n_matches_reference :
    (∀ v, n v = numericCoercionSpec v) ∧
    n none = 0 ∧
    n (some .null) = 0 ∧
    n (some (.str "-5")) = -5 ∧
    n (some (.str " -2,5 ")) = -(5 / 2) ∧
    n (some (.str "1,2,3")) = 0 ∧
    n (some (.str "abc")) = 0 := by
  refine ⟨?_, rfl, rfl, ?_, ?_, ?_, ?_⟩
  · intro v
    cases v with
    | none => rfl
    | some w => cases w <;> rfl
  all_goals
    simp +decide [n, jsStringOf, jsTrim, wsChar, replaceFirstComma, replaceFirstComma.go,
      jsNumber, parseDecimalBody, digitsVal, hexDigitVal, isHexDigitChar]
  all_goals norm_num

/-- C3: in the `dbPutItems`/`dbDeleteRecipe` of src/app.js the awaited read
completes strictly before the read-write transaction opens, and no
suspension occurs after it opens; the v1 variant in src/unnamed/part_000
opens the transaction FIRST and then awaits the read — the unsafe pattern
the claim (and the iOS/Safari comments in the later variants) forbids. -/
theorem profileStore_transaction_order :
    (∀ nExisting nInserted,
      suspensionAfterOpen (dbPutItemsEvents nExisting nInserted) = false) ∧
    (∀ nExisting, suspensionAfterOpen (dbDeleteRecipeEvents nExisting) = false) ∧
    suspensionAfterOpen (dbPutItemsEventsV1 1 1) = true ∧
    suspensionAfterOpen (dbDeleteRecipeEventsV1 1) = true := by
  refine ⟨?_, ?_, by decide, by decide⟩
  · intro nE nI
    simp +decide [suspensionAfterOpen, dbPutItemsEvents, List.dropWhile,
      any_awaitRead_replicate]
  · intro nE
    simp +decide [suspensionAfterOpen, dbDeleteRecipeEvents, List.dropWhile,
      any_awaitRead_replicate]

/-- C9: a Row Store entry that parses to the empty array is accepted by step
(a) of the resolution order (an empty array is truthy), so `ensureRows`
returns the empty row list without consulting the Profile Store or the
blank-row fallback. -/
theorem ensureRows_acceptsEmptyArray (s : Stores) (recipeName : String)
    (h : s.rowsLS recipeName = some (.parsed (.arr []))) :
    ensureRowsForRecipe s recipeName = [] := by
  unfold ensureRowsForRecipe loadRowsForRecipe
  rw [h]
  rfl

/-- Witness for C9: a concrete store whose "Pie" entry is the persisted text
`"[]"` (and whose Profile Store holds a record a rebuild would surface);
`ensureRows` returns `[]`. -/
theorem ensureRows_acceptsEmptyArray_witness :
    emptyRowsStores.rowsLS "Pie" = some (.parsed (.arr [])) ∧
    ensureRowsForRecipe emptyRowsStores "Pie" = [] :=
  ⟨by rfl, ensureRows_acceptsEmptyArray emptyRowsStores "Pie" (by rfl)⟩

/-- C1: `ensureRows` resolves in the claimed order — (a) rows loaded from
the Row Store are returned unchanged; (b) otherwise, when the Profile Store
has records for the recipe, one row per record is rebuilt with
`name = Ingredient`, `recipeAmount` from the record, and cost/amount from
the Ingredient Cache entry of that name (0/0 when absent); (c) otherwise the
single blank default row is returned.  Being a total Lean function, it never
fails. -/
theorem ensureRows_resolution (s : Stores) (recipeName : String) :
    (∀ rows, loadRowsForRecipe s recipeName = some rows →
      ensureRowsForRecipe s recipeName = rows) ∧
    (∀ db, loadRowsForRecipe s recipeName = none → s.db = some db →
      dbGetItems db recipeName ≠ [] →
      ensureRowsForRecipe s recipeName = (dbGetItems db recipeName).map (fun it =>
        { name := it.Ingredient,
          cost := (((loadIngredientCache s).lookup it.Ingredient).getD
            { cost := 0, amount := 0 }).cost,
          amount := (((loadIngredientCache s).lookup it.Ingredient).getD
            { cost := 0, amount := 0 }).amount,
          recipeAmount := it.RecipeAmmount })) ∧
    (loadRowsForRecipe s recipeName = none →
      (s.db = none ∨ ∃ db, s.db = some db ∧ dbGetItems db recipeName = []) →
      ensureRowsForRecipe s recipeName
        = [{ name := "", cost := 0, amount := 0, recipeAmount := 0 }]) := by
  refine ⟨?_, ?_, ?_⟩
  · intro rows h
    unfold ensureRowsForRecipe
    rw [h]
  · intro db h hdb hne
    have hlen : (dbGetItems db recipeName).length ≠ 0 := by
      simpa [List.length_eq_zero] using hne
    unfold ensureRowsForRecipe
    rw [h, hdb]
    simp [hlen]
  · intro h hcase
    unfold ensureRowsForRecipe
    rw [h]
    rcases hcase with hnone | ⟨db, hdb, hempty⟩
    · rw [hnone]
      rfl
    · rw [hdb]
      simp [hempty, defaultRows]

/-- Witness for C1, the spec's rebuild-correctness test: no local rows for
"Cake", Profile Store record `{Flour, 300}`, cache `{Flour: 1290/1000}` —
`ensureRows` returns `[{Flour, 1290, 1000, 300}]`. -/
theorem ensureRows_resolution_witness :
    loadRowsForRecipe flourStores "Cake" = none ∧
    ensureRowsForRecipe flourStores "Cake"
      = [{ name := "Flour", cost := 1290, amount := 1000, recipeAmount := 300 }] := by
  refine ⟨rfl, ?_⟩
  have h := (ensureRows_resolution flourStores "Cake").2.1
    [{ key := "Cake::Flour", recipeName := "Cake", Ingredient := "Flour", RecipeAmmount := 300 }]
    rfl rfl (by decide)
  rw [h]
  rfl

/-- C4: deleting a row never leaves an empty persisted sequence — if the
splice empties the working rows they are reset to exactly one blank row, the
reset (or remaining) rows are immediately persisted under the current
recipe, the persisted list is never empty, and no other recipe's entry is
touched. -/
theorem deleteRow_never_persists_empty (a : AppState) (idx : ℕ) :
    (a.rowsState.eraseIdx idx = [] →
      (tbodyDeleteRow a idx).rowsState
        = [{ name := "", cost := 0, amount := 0, recipeAmount := 0 }]) ∧
    (tbodyDeleteRow a idx).rowsState ≠ [] ∧
    (tbodyDeleteRow a idx).stores.rowsLS a.currentRecipe
      = some (.parsed (.arr ((tbodyDeleteRow a idx).rowsState.map rowToJson))) ∧
    (∀ rn, rn ≠ a.currentRecipe →
      (tbodyDeleteRow a idx).stores.rowsLS rn = a.stores.rowsLS rn) := by
  by_cases h : (a.rowsState.eraseIdx idx).length = 0
  · refine ⟨fun _ => ?_, ?_, ?_, fun rn hrn => ?_⟩ <;>
      simp [tbodyDeleteRow, h, scheduleSave, saveRowsForRecipe,
        updateIngredientCacheFromRows, saveIngredientCache, loadIngredientCache,
        defaultRows, *]
  · have h' : a.rowsState.eraseIdx idx ≠ [] := by
      simpa [List.length_eq_zero] using h
    refine ⟨fun he => absurd he h', ?_, ?_, fun rn hrn => ?_⟩ <;>
      simp [tbodyDeleteRow, h, scheduleSave, saveRowsForRecipe, h', *]

/-- Witness for C4: deleting the only row of a one-row recipe resets the
working rows to the single blank row. -/
theorem deleteRow_never_persists_empty_witness :
    oneRowState.rowsState.eraseIdx 0 = [] ∧
    (tbodyDeleteRow oneRowState 0).rowsState
      = [{ name := "", cost := 0, amount := 0, recipeAmount := 0 }] :=
  ⟨rfl, (deleteRow_never_persists_empty oneRowState 0).1 rfl⟩

/-- C5: `switchRecipe` cancels any pending debounced save as its first
action, before the current-recipe pointer moves; consequently, whatever the
host's timer schedule, the only row-store write the call performs is the
resolved rows of the TARGET recipe under the TARGET name — the canceled
timer never writes the old working rows at all — and no save is pending
afterwards. -/
theorem switchRecipe_cancels_pending_save (a : AppState) (recipeName : String)
    (persist timerFires : Bool) :
    (switchRecipe a recipeName persist timerFires).2
      = [(recipeName,
          ensureRowsForRecipe
            (if persist then setCurrentRecipe a.stores recipeName else a.stores) recipeName)] ∧
    (switchRecipe a recipeName persist timerFires).1.saveTimer = false := by
  cases persist <;> cases timerFires <;>
    simp [switchRecipe, fireSaveTimer, setCurrentRecipe, saveRowsForRecipe, ensureMetaStore]

/-! ## Lemmas toward C2 (replace semantics and idempotence of `dbPutItems`) -/

/-- Appending on the left of `++` is cancellable for strings. -/
lemma string_append_right_inj (s a b : String) (h : s ++ a = s ++ b) : a = b := by
  have hd := congrArg String.data h
  rw [String.data_append, String.data_append] at hd
  cases a
  cases b
  simp only [String.data] at hd
  exact congrArg String.mk (List.append_cancel_left hd)

/-- Distinct ingredient names give distinct canonical keys. -/
lemma keyNe (rn ing1 ing2 : String) (hne : ing1 ≠ ing2) :
    rn ++ "::" ++ ing1 ≠ rn ++ "::" ++ ing2 :=
  fun h => hne (string_append_right_inj (rn ++ "::") ing1 ing2 h)

/-- The delete loop of `dbPutItems`/`dbDeleteRecipe` filters out exactly the
keys of the listed records. -/
lemma foldl_idbDelete_eq (ex : List Item) : ∀ db : List Item,
    ex.foldl (fun d it => idbDelete d it.key) db
      = db.filter (fun x => x.key ∉ ex.map Item.key) := by
  induction ex with
  | nil => intro db; simp
  | cons a t ih =>
    intro db
    rw [List.foldl_cons]
    show t.foldl _ (idbDelete db a.key) = _
    rw [ih]
    unfold idbDelete
    rw [List.filter_filter]
    apply List.filter_congr
    intro x _
    by_cases h1 : x.key = a.key <;> by_cases h2 : x.key ∈ t.map Item.key <;>
      simp [h1, h2]

/-- `keysOf` unfolded over a cons. -/
lemma keysOf_cons (rn : String) (r : Row) (t : List Row) :
    keysOf rn (r :: t)
      = if jsTrim r.name = "" then keysOf rn t
        else (rn ++ "::" ++ jsTrim r.name) :: keysOf rn t := by
  by_cases h : jsTrim r.name = "" <;> simp [keysOf, List.filterMap_cons, h]

/-- Records reachable from the insert loop either come from the accumulator
or are freshly written ones: recipe-tagged, canonically keyed, with a
non-empty ingredient. -/
lemma mem_foldl_putRowStep (rn : String) : ∀ (rows : List Row) (d : List Item) (it : Item),
    it ∈ rows.foldl (putRowStep rn) d →
    it ∈ d ∨ (it.recipeName = rn ∧ it.key ∈ keysOf rn rows ∧ it.Ingredient ≠ "") := by
  intro rows
  induction rows with
  | nil => intro d it h; exact Or.inl h
  | cons r t ih =>
    intro d it h
    rw [List.foldl_cons] at h
    by_cases hing : jsTrim r.name = ""
    · have heq : putRowStep rn d r = d := by simp [putRowStep, hing]
      rw [heq] at h
      rcases ih d it h with h1 | ⟨h2, h3, h4⟩
      · exact Or.inl h1
      · exact Or.inr ⟨h2, by simp [keysOf_cons, hing, h3], h4⟩
    · rcases ih _ it h with h1 | ⟨h2, h3, h4⟩
      · have hput : putRowStep rn d r
            = d.filter (fun x => x.key ≠ rn ++ "::" ++ jsTrim r.name)
              ++ [{ key := rn ++ "::" ++ jsTrim r.name, recipeName := rn,
                    Ingredient := jsTrim r.name, RecipeAmmount := r.recipeAmount }] := by
          simp [putRowStep, idbPut, hing]
        rw [hput] at h1
        rcases List.mem_append.mp h1 with hf | hs
        · exact Or.inl (List.mem_of_mem_filter hf)
        · have := List.mem_singleton.mp hs
          subst this
          exact Or.inr ⟨rfl, by simp [keysOf_cons, hing], hing⟩
      · exact Or.inr ⟨h2, by simp [keysOf_cons, hing]; exact Or.inr h3, h4⟩

/-- Decomposition of the insert loop: the accumulator keeps only the records
whose keys the loop does not write, followed by the freshly written block. -/
lemma foldl_putRowStep_eq (rn : String) : ∀ (rows : List Row) (d : List Item),
    rows.foldl (putRowStep rn) d
      = d.filter (fun x => x.key ∉ keysOf rn rows) ++ rows.foldl (putRowStep rn) [] := by
  intro rows
  induction rows with
  | nil => intro d; simp [keysOf]
  | cons r t ih =>
    intro d
    rw [List.foldl_cons, List.foldl_cons]
    by_cases hing : jsTrim r.name = ""
    · have h1 : putRowStep rn d r = d := by simp [putRowStep, hing]
      have h2 : putRowStep rn ([] : List Item) r = [] := by simp [putRowStep, hing]
      rw [h1, h2, ih d]
      apply congrArg (fun l => l ++ t.foldl (putRowStep rn) [])
      apply List.filter_congr
      intro x _
      simp [keysOf_cons, hing]
    · have hput : ∀ d0 : List Item, putRowStep rn d0 r
          = d0.filter (fun x => x.key ≠ rn ++ "::" ++ jsTrim r.name)
            ++ [{ key := rn ++ "::" ++ jsTrim r.name, recipeName := rn,
                  Ingredient := jsTrim r.name, RecipeAmmount := r.recipeAmount }] := by
        intro d0
        simp [putRowStep, idbPut, hing]
      have e1 := ih (List.filter (fun x => x.key ≠ rn ++ "::" ++ jsTrim r.name) d
        ++ [{ key := rn ++ "::" ++ jsTrim r.name, recipeName := rn,
              Ingredient := jsTrim r.name, RecipeAmmount := r.recipeAmount }])
      rw [hput d, hput ([] : List Item)]
      simp only [List.filter_nil, List.nil_append]
      rw [e1]
      conv_rhs => rw [ih]
      rw [List.filter_append, List.filter_filter, List.append_assoc]
      congr 1
      apply List.filter_congr
      intro x _
      by_cases h1 : x.key = rn ++ "::" ++ jsTrim r.name <;>
        by_cases h2 : x.key ∈ keysOf rn t <;>
        simp [keysOf_cons, hing, h1, h2]

/-- Freshly written records carry the recipe name, a written key, and a
non-empty ingredient. -/
lemma foldl_putRowStep_nil_props (rn : String) (rows : List Row) :
    ∀ it ∈ rows.foldl (putRowStep rn) [],
      it.recipeName = rn ∧ it.key ∈ keysOf rn rows ∧ it.Ingredient ≠ "" := by
  intro it h
  rcases mem_foldl_putRowStep rn rows [] it h with h1 | h2
  · cases h1
  · exact h2

/-- `lastRowFor` unfolded over a cons. -/
lemma lastRowFor_cons (r : Row) (t : List Row) (ing : String) :
    lastRowFor (r :: t) ing
      = if jsTrim r.name = ing then some ((lastRowFor t ing).getD r)
        else lastRowFor t ing := by
  unfold lastRowFor
  rw [List.filter_cons]
  by_cases h : jsTrim r.name = ing
  · simp [h, List.getLast?_cons]
  · simp [h]

/-- `putRowStep` on a row with non-empty trimmed name, spelled with
`mkItem`. -/
lemma putRowStep_eq_mkItem (rn : String) (d : List Item) (r : Row)
    (h : jsTrim r.name ≠ "") :
    putRowStep rn d r
      = d.filter (fun x => x.key ≠ rn ++ "::" ++ jsTrim r.name)
        ++ [mkItem rn (jsTrim r.name) r.recipeAmount] := by
  simp [putRowStep, idbPut, mkItem, h]

/-- Commuting an ingredient filter past a key filter. -/
lemma filter_ing_key_comm (d : List Item) (ing k : String) :
    d.filter (fun x => decide (x.Ingredient = ing) && decide (x.key ≠ k))
      = (d.filter (fun x => x.Ingredient = ing)).filter (fun x => x.key ≠ k) := by
  rw [List.filter_filter]
  apply List.filter_congr
  intro x _
  by_cases hb1 : x.Ingredient = ing <;> by_cases hb2 : x.key = k <;> simp [hb1, hb2]

/-- Per-ingredient view of the insert loop: starting from an accumulator
whose records for `ing` are absent or a single canonical record, the loop
leaves the canonical record of the LAST row named `ing` (or the accumulator
view when no row is). -/
lemma filter_ing_foldl_putRowStep (rn ing : String) (hing : ing ≠ "") :
    ∀ (rows : List Row) (d : List Item),
      (d.filter (fun x => x.Ingredient = ing) = [] ∨
        ∃ q : ℚ, d.filter (fun x => x.Ingredient = ing) = [mkItem rn ing q]) →
      (rows.foldl (putRowStep rn) d).filter (fun x => x.Ingredient = ing)
        = match lastRowFor rows ing with
          | some r => [mkItem rn ing r.recipeAmount]
          | none => d.filter (fun x => x.Ingredient = ing) := by
  intro rows
  induction rows with
  | nil => intro d _; simp [lastRowFor]
  | cons r t ih =>
    intro d hd
    rw [List.foldl_cons, lastRowFor_cons]
    by_cases h1 : jsTrim r.name = ""
    · have heq : putRowStep rn d r = d := by simp [putRowStep, h1]
      have hne : ¬ jsTrim r.name = ing := by
        rw [h1]; exact fun hc => hing hc.symm
      rw [heq, if_neg hne]
      exact ih d hd
    · by_cases h2 : jsTrim r.name = ing
      · rw [if_pos h2]
        have hput := putRowStep_eq_mkItem rn d r h1
        rw [h2] at hput
        have hd' : (d.filter (fun x => x.key ≠ rn ++ "::" ++ ing)
              ++ [mkItem rn ing r.recipeAmount]).filter (fun x => x.Ingredient = ing)
            = [mkItem rn ing r.recipeAmount] := by
          rw [List.filter_append, List.filter_filter]
          have hz : d.filter (fun x =>
              decide (x.Ingredient = ing) && decide (x.key ≠ rn ++ "::" ++ ing)) = [] := by
            rw [filter_ing_key_comm]
            rcases hd with hnil | ⟨q, hq⟩
            · rw [hnil]
              rfl
            · rw [hq]
              simp [mkItem]
          rw [hz]
          simp [mkItem]
        rw [hput, ih _ (Or.inr ⟨r.recipeAmount, hd'⟩)]
        cases hl : lastRowFor t ing with
        | none => simpa using hd'
        | some r0 => simp
      · rw [if_neg h2]
        have hput := putRowStep_eq_mkItem rn d r h1
        have hfix : (d.filter (fun x => x.key ≠ rn ++ "::" ++ jsTrim r.name)
              ++ [mkItem rn (jsTrim r.name) r.recipeAmount]).filter
                (fun x => x.Ingredient = ing)
            = d.filter (fun x => x.Ingredient = ing) := by
          rw [List.filter_append, List.filter_filter]
          have hone : ([mkItem rn (jsTrim r.name) r.recipeAmount].filter
                (fun x => x.Ingredient = ing) : List Item) = [] := by
            simp [mkItem, h2]
          rw [hone, List.append_nil, filter_ing_key_comm]
          rcases hd with hnil | ⟨q, hq⟩
          · rw [hnil]
            rfl
          · rw [List.filter_eq_self]
            intro x hx
            rw [hq] at hx
            simp only [List.mem_singleton] at hx
            subst hx
            simpa [mkItem] using
              keyNe rn ing (jsTrim r.name) (fun hc => h2 hc.symm)
        have hd' : ((d.filter (fun x => x.key ≠ rn ++ "::" ++ jsTrim r.name)
              ++ [mkItem rn (jsTrim r.name) r.recipeAmount]).filter
                (fun x => x.Ingredient = ing) = [] ∨
            ∃ q : ℚ, (d.filter (fun x => x.key ≠ rn ++ "::" ++ jsTrim r.name)
              ++ [mkItem rn (jsTrim r.name) r.recipeAmount]).filter
                (fun x => x.Ingredient = ing) = [mkItem rn ing q]) := by
          rw [hfix]
          exact hd
        rw [hput, ih _ hd']
        cases hl : lastRowFor t ing with
        | none => simpa using hfix
        | some r0 => simp

/-- After `dbPutItems`, the records of the recipe are exactly the freshly
written block. -/
lemma dbGetItems_dbPutItems (db : List Item) (rn : String) (rows : List Row) :
    dbGetItems (dbPutItems db rn rows) rn = rows.foldl (putRowStep rn) [] := by
  simp only [dbPutItems]
  rw [foldl_idbDelete_eq, foldl_putRowStep_eq]
  unfold dbGetItems
  rw [List.filter_append]
  have hnil : List.filter (fun x => x.recipeName = rn)
      (List.filter (fun x => x.key ∉ keysOf rn rows)
        (List.filter (fun x => x.key ∉ (List.filter
          (fun x => x.recipeName = rn) db).map Item.key) db)) = [] := by
    rw [List.filter_filter, List.filter_filter, List.filter_eq_nil_iff]
    intro x hx h
    simp only [Bool.and_eq_true, decide_eq_true_eq] at h
    exact h.2 (List.mem_map_of_mem Item.key (List.mem_filter.mpr ⟨hx, by simp [h.1.1]⟩))
  rw [hnil, List.nil_append, List.filter_eq_self]
  intro it hit
  simp [(foldl_putRowStep_nil_props rn rows it hit).1]

/-- A database that already is `leftover ++ fresh block` is a fixed point of
the replace operation. -/
lemma dbPutItems_stable (D Q : List Item) (rn : String) (rows : List Row)
    (hget : dbGetItems D rn = rows.foldl (putRowStep rn) [])
    (hsplit : D = Q ++ rows.foldl (putRowStep rn) [])
    (hQ : ∀ x ∈ Q, x.key ∉ keysOf rn rows) :
    dbPutItems D rn rows = D := by
  simp only [dbPutItems]
  rw [hget, foldl_idbDelete_eq, foldl_putRowStep_eq]
  have h1 : D.filter
      (fun x => x.key ∉ (rows.foldl (putRowStep rn) []).map Item.key) = Q := by
    rw [hsplit, List.filter_append]
    have h2 : (rows.foldl (putRowStep rn) []).filter
        (fun x => x.key ∉ (rows.foldl (putRowStep rn) []).map Item.key) = [] := by
      rw [List.filter_eq_nil_iff]
      intro it hit
      simp [List.mem_map_of_mem Item.key hit]
    have h3 : Q.filter
        (fun x => x.key ∉ (rows.foldl (putRowStep rn) []).map Item.key) = Q := by
      rw [List.filter_eq_self]
      intro x hx
      simp only [decide_eq_true_eq, List.mem_map, not_exists, not_and]
      intro it hit hkey
      exact hQ x hx (hkey ▸ (foldl_putRowStep_nil_props rn rows it hit).2.1)
    rw [h2, h3, List.append_nil]
  rw [h1]
  have h4 : Q.filter (fun x => x.key ∉ keysOf rn rows) = Q := by
    rw [List.filter_eq_self]
    intro x hx
    simpa using hQ x hx
  rw [h4, hsplit]

/-- Applying the replace twice is the same as applying it once, at the level
of the full record list. -/
lemma dbPutItems_idempotent (db : List Item) (rn : String) (rows : List Row) :
    dbPutItems (dbPutItems db rn rows) rn rows = dbPutItems db rn rows := by
  have hD : dbPutItems db rn rows
      = (db.filter (fun x => x.key ∉ (dbGetItems db rn).map Item.key)).filter
          (fun x => x.key ∉ keysOf rn rows)
        ++ rows.foldl (putRowStep rn) [] := by
    simp only [dbPutItems]
    rw [foldl_idbDelete_eq, foldl_putRowStep_eq]
  refine dbPutItems_stable _ _ rn rows (dbGetItems_dbPutItems db rn rows) hD ?_
  intro x hx
  simpa using List.of_mem_filter hx

/-- C2: after `putItems(recipeName, rows)` completes successfully, the
Profile Store holds for that recipe exactly one record per distinct
non-empty trimmed row name — rows with empty trimmed names are skipped, two
rows with the same name collapse to the LAST row's `recipeAmount` — and the
records for the recipe are fully determined by `rows` (so nothing from
before the call survives); consequently running the same replace again
leaves the whole store unchanged. -/
theorem dbPutItems_replace_semantics (db : List Item) (recipeName : String) (rows : List Row) :
    (∀ ing, (dbGetItems (dbPutItems db recipeName rows) recipeName).filter
        (fun it => it.Ingredient = ing) = specRecordsFor recipeName rows ing) ∧
    dbPutItems (dbPutItems db recipeName rows) recipeName rows
      = dbPutItems db recipeName rows := by
  constructor
  · intro ing
    rw [dbGetItems_dbPutItems]
    by_cases hing : ing = ""
    · subst hing
      have hleft : (rows.foldl (putRowStep recipeName) []).filter
          (fun it => it.Ingredient = "") = [] := by
        rw [List.filter_eq_nil_iff]
        intro it hit
        simpa using (foldl_putRowStep_nil_props recipeName rows it hit).2.2
      rw [hleft]
      simp [specRecordsFor]
    · rw [filter_ing_foldl_putRowStep recipeName ing hing rows [] (Or.inl rfl)]
      unfold specRecordsFor
      rw [if_neg hing]
      cases hl : lastRowFor rows ing <;> simp [hl, mkItem]
  · exact dbPutItems_idempotent db recipeName rows

/-- Counterexample to C6 as stated: a document whose `recipes` field is an
ARRAY — not a mapping — passes `isValidBackupObject` (arrays are truthy and
`typeof [] === "object"`), so import does NOT reject it: it reports success
and mutates state (here the metadata store gains a "Default" entry through
the final `switchRecipe`). -/
theorem importBackup_accepts_array_recipes :
    isValidBackupObject arrayRecipesDoc = true ∧
    (importBackupFromJsonText (some arrayRecipesDoc) freshState).2 = true ∧
    (importBackupFromJsonText (some arrayRecipesDoc) freshState).1.stores.metaLS
      ≠ freshState.stores.metaLS := by
  refine ⟨by decide, by decide, by decide⟩

/-- C6 amended: if the document fails the code's validation — the `app`
identifier differs, `schemaVersion` is not a (finite) number, or `recipes`
is missing, null, or not of JavaScript object type (note an ARRAY is of
object type and passes) — then import rejects it, reports the failure
(returns `false`) and leaves every store byte-for-byte unchanged. -/
theorem importBackup_rejects_invalid (o : JVal) (a : AppState)
    (h : isValidBackupObject o = false) :
    importBackupFromJsonText (some o) a = (a, false) := by
  simp [importBackupFromJsonText, h]

/-- Witness for the amended C6: a document with a wrong `app` identifier is
rejected and the state is returned untouched. -/
theorem importBackup_rejects_invalid_witness :
    isValidBackupObject (.obj [("app", .str "SomeOtherApp")]) = false ∧
    importBackupFromJsonText (some (.obj [("app", .str "SomeOtherApp")])) freshState
      = (freshState, false) :=
  ⟨by decide, importBackup_rejects_invalid _ freshState (by decide)⟩
